import Mathlib

/-!
Verification development for the quick-file-open ranking logic of
`packages/file-search/src/browser/quick-file-open.ts` (class
`QuickFileOpenService`).

Strings are modelled as `List Char`.  External collaborators that are not
part of this repository (the npm `fuzzy` library's `fuzzy.test`, the
`LabelProvider.getName` display-label function, and `URI#path.toString`)
are taken as opaque function parameters, matching the spec's statement
that their exact behaviour is supplied externally.
-/

/-- Strings of the embedded program. -/
abbrev Str := List Char

/-- The whitespace characters removed by JavaScript `String.prototype.trim`
(space, tab, LF, CR, VT, FF; exotic Unicode whitespace is out of scope for
the ASCII inputs this program manipulates). -/
def isJsWhitespace (c : Char) : Bool :=
  c == ' ' || c == '\t' || c == '\n' || c == '\r' || c.toNat == 11 || c.toNat == 12

/-- JavaScript `s.trim()`: drop whitespace from both ends. -/
def jsTrim (s : Str) : Str :=
  ((s.dropWhile isJsWhitespace).reverse.dropWhile isJsWhitespace).reverse

/-- JavaScript `s.toLowerCase()` on the ASCII range. -/
def jsToLower (s : Str) : Str := s.map Char.toLower

/-- The characters kept by the replacement `replace(/[^a-zA-Z ]/g, '')`:
ASCII letters and the space character. -/
def keepLetterSpace (c : Char) : Bool := c.isAlpha || c == ' '

/-- `s.replace(/[^a-zA-Z ]/g, '')`: strip every character that is not an
ASCII letter or a space (quick-file-open.ts line 218). -/
def stripNonLetters (s : Str) : Str := s.filter keepLetterSpace

/-- Normalization applied to the query in `compareItems`
(quick-file-open.ts line 219):
`this.currentLookFor.toLowerCase().replace(new RegExp(regexp), '')`.
Note: the query is NOT trimmed. -/
def normalizeQuery (lookFor : Str) : Str := stripNonLetters (jsToLower lookFor)

/-- Normalization applied to each comparison key in `compareItems`
(quick-file-open.ts lines 244-245):
`item.trim().toLowerCase().replace(new RegExp(regexp), '')`. -/
def normalizeKey (s : Str) : Str := stripNonLetters (jsToLower (jsTrim s))

/-- The normalization pipeline as the spec words it for both query and key:
"trimming whitespace, lower-casing, stripping every character that is not
an ASCII letter or space".  Kept separate from `normalizeQuery` /
`normalizeKey` so the two can be compared. -/
def specNormalize (s : Str) : Str := stripNonLetters (jsToLower (jsTrim s))

/-- JavaScript `s.indexOf(pat)`: the smallest offset at which `pat` occurs
as a contiguous substring of `s`, or `none` (JS `-1`).  `firstIndexOf []
s = some 0` matches `s.indexOf('') === 0`. -/
def firstIndexOf (pat : Str) : Str → Option Nat
  | [] => if pat = [] then some 0 else none
  | c :: t => if pat.isPrefixOf (c :: t) then some 0 else (firstIndexOf pat t).map (· + 1)

/-- `a.localeCompare(b)` as invoked in `compareItems` (line 269).  At that
point both strings are already lower-cased ASCII letters and spaces, where
`localeCompare` coincides with code-point lexicographic comparison. -/
def strCmp : Str → Str → Int
  | [], [] => 0
  | [], _ :: _ => -1
  | _ :: _, [] => 1
  | a :: as, b :: bs => if a < b then -1 else if b < a then 1 else strCmp as bs

/-- The inner helper `cmp(x, y)` of `compareItems` (lines 227-229),
applied to the two match indexes. -/
def cmpNum (x y : Nat) : Int := if x = y then 0 else if x > y then 1 else -1

/-- The `member` argument of `compareItems`: `'getLabel' | 'getUri'`. -/
inductive Member
  | getLabel
  | getUri
deriving DecidableEq, Repr

/-- A produced quick-open item: its resource identifier (URI), its display
label, and the optional group label (`QuickOpenGroupItem` vs plain
`QuickOpenItem` in `toItem`, lines 288-314). -/
structure Item where
  uri : Str
  label : Str
  groupLabel : Option String
deriving DecidableEq, Repr

/-- `this.toItem(uri, group)` (lines 288-314), stripped of the purely
visual fields: the label comes from the label provider (`getName`), the
group label is attached when given. -/
def toItem (getName : Str → Str) (uri : Str) (group : Option String) : Item :=
  ⟨uri, getName uri, group⟩

/-- `a[member]()`, followed by the `URI → string` conversion of lines
236-241: for `getUri` the comparison key is `uri.path.toString()`,
modelled by the opaque `pathOf`. -/
def memberKey (pathOf : Str → Str) (m : Member) (x : Item) : Str :=
  match m with
  | .getLabel => x.label
  | .getUri => pathOf x.uri

/-- One pass of `compareItems` (lines 213-280): either it returns a number
(`Sum.inl`), or it reaches line 273 and calls itself again with the
`getUri` member (`Sum.inr .getUri`). -/
def compareItemsStep (pathOf : Str → Str) (currentLookFor : Str) (a b : Item)
    (m : Member) : Sum Int Member :=
  let query := normalizeQuery currentLookFor
  let itemA := normalizeKey (memberKey pathOf m a)
  let itemB := normalizeKey (memberKey pathOf m b)
  match firstIndexOf query itemA, firstIndexOf query itemB with
  | none, none => Sum.inl 0
  | none, some _ => Sum.inl 1
  | some _, none => Sum.inl (-1)
  | some indexA, some indexB =>
    if indexA = indexB then
      if itemA.length ≠ itemB.length then
        Sum.inl (if itemA.length < itemB.length then -1 else 1)
      else
        let comparison := strCmp itemA itemB
        if comparison = 0 then Sum.inr Member.getUri else Sum.inl comparison
    else
      Sum.inl (cmpNum indexA indexB)

/-- `compareItems` with an explicit recursion budget: `none` means the
budget was exhausted, i.e. the source recursed at least that many times. -/
def compareItemsFuel (pathOf : Str → Str) (currentLookFor : Str) (a b : Item) :
    Nat → Member → Option Int
  | 0, _ => none
  | n + 1, m =>
    match compareItemsStep pathOf currentLookFor a b m with
    | Sum.inl v => some v
    | Sum.inr m' => compareItemsFuel pathOf currentLookFor a b n m'

/-- `this.compareItems(a, b)` as invoked by the sort at line 174: the label
pass, with one level of `getUri` fallback.  On the inputs where the source
recurses beyond that (a full tie of both normalized keys) the source
overflows the call stack; this total model returns 0 there. -/
def compareItems (pathOf : Str → Str) (currentLookFor : Str) (a b : Item) : Int :=
  (compareItemsFuel pathOf currentLookFor a b 2 Member.getLabel).getD 0

/-- Insert an element into a list according to an integer comparator,
keeping it before the first strictly greater element.  Together with
`sortByCmp` this models `Array.prototype.sort(comparator)` at line 174: a
stable comparison sort whose output is a permutation of its input. -/
def insertCmp (cmp : Item → Item → Int) (x : Item) : List Item → List Item
  | [] => [x]
  | y :: ys => if cmp x y ≤ 0 then x :: y :: ys else y :: insertCmp cmp x ys

/-- `array.sort(comparator)` (line 174), modelled as stable insertion
sort. -/
def sortByCmp (cmp : Item → Item → Int) : List Item → List Item
  | [] => []
  | x :: xs => insertCmp cmp x (sortByCmp cmp xs)

/-- The history pass of `onType` (lines 154-160), operating on the already
reversed location list: keep a URI when it is not yet in
`alreadyCollected` and `fuzzy.test(lookFor, uriString)` holds; the first
kept item (`recentlyUsedItems.length === 0`, tracked by `kept`) gets the
group label `'recently opened'`.  Returns the built items and the final
`alreadyCollected` set. -/
def historyLoop (fuzzyTest : Str → Str → Bool) (getName : Str → Str) (lookFor : Str) :
    List Str → List Str → Nat → List Item × List Str
  | [], seen, _ => ([], seen)
  | u :: rest, seen, kept =>
    if u ∉ seen ∧ fuzzyTest lookFor u then
      let item := toItem getName u (if kept = 0 then some "recently opened" else none)
      let r := historyLoop fuzzyTest getName lookFor rest (u :: seen) (kept + 1)
      (item :: r.1, r.2)
    else
      historyLoop fuzzyTest getName lookFor rest seen kept

/-- Lines 150-160 of `onType`: the `recentlyUsedItems` list and the
`alreadyCollected` set after traversing
`[...locations()].reverse()`. -/
def historyPass (fuzzyTest : Str → Str → Bool) (getName : Str → Str) (lookFor : Str)
    (locations : List Str) : List Item × List Str :=
  historyLoop fuzzyTest getName lookFor locations.reverse [] 0

/-- The deduplication loop of the search handler (lines 164-170): build an
item for each result URI not already in `alreadyCollected`, extending the
set as it goes. -/
def searchDedupLoop (getName : Str → Str) : List Str → List Str → List Item
  | [], _ => []
  | u :: rest, seen =>
    if u ∉ seen then
      toItem getName u none :: searchDedupLoop getName rest (u :: seen)
    else
      searchDedupLoop getName rest seen

/-- What the deferred search `handler` (lines 162-184) does when it runs:
nothing when its token has been cancelled, otherwise deduplicate, sort,
and re-tag the first sorted element with group `'file results'`. -/
inductive HandlerOutcome
  /-- `token.isCancellationRequested` was true: the acceptor is not called. -/
  | skipped
  /-- `sortedResults` was empty, so `first` is `undefined` and
  `first.getUri()` at line 179 throws a `TypeError`: the acceptor is not
  called and the handler's promise rejects. -/
  | crashed
  /-- `acceptor([...recentlyUsedItems, ...sortedResults])` was called. -/
  | delivered (items : List Item)
deriving DecidableEq, Repr

/-- The search `handler` of `onType` (lines 162-184). -/
def runHandler (getName pathOf : Str → Str) (lookFor : Str)
    (alreadyCollected : List Str) (recentlyUsedItems : List Item)
    (tokenCancelled : Bool) (results : List Str) : HandlerOutcome :=
  if tokenCancelled then
    HandlerOutcome.skipped
  else
    let fileSearchResultItems := searchDedupLoop getName results alreadyCollected
    let sortedResults := sortByCmp (compareItems pathOf lookFor) fileSearchResultItems
    match sortedResults with
    | [] => HandlerOutcome.crashed
    | first :: rest =>
      HandlerOutcome.delivered
        (recentlyUsedItems ++ toItem getName first.uri (some "file results") :: rest)

/-- Modelled from the spec: `CancellationTokenSource` /
`CancellationToken` come from `@theia/core/lib/common`, which is not part
of this repository snapshot.  Per spec section 9 ("implement as a plain
generation counter"), tokens are generation numbers: the token issued by
an invocation is cancelled exactly when a later invocation has bumped the
generation past it. -/
def tokenCancelled (tokenGen genAtHandlerRun : Nat) : Bool :=
  decide (tokenGen < genAtHandlerRun)

/-- The mutable fields of `QuickFileOpenService` that `onType` touches:
`currentLookFor` (line 74) and the cancellation generation standing for
`cancelIndicator` (line 137). -/
structure RankerState where
  currentLookFor : Str
  gen : Nat
deriving DecidableEq, Repr

/-- Everything observable about one `onType` invocation once its search
promise (if any) has settled. -/
structure RunOutcome where
  /-- The settlement of the promise `onType` itself returns; the `find`
  promise is neither awaited nor returned, so this is `.ok ()` on every
  path that completes the function body. -/
  returned : Except String Unit
  /-- Whether `this.fileSearchService.find` was invoked. -/
  searchInvoked : Bool
  /-- The argument of the `acceptor` call, when one happened. -/
  delivered : Option (List Item)
  /-- Whether the handler threw a `TypeError` (empty `sortedResults`). -/
  crashed : Bool
  /-- A rejection of the `find` promise: `.then(handler)` has no rejection
  branch and the resulting promise is discarded, so the error surfaces
  only as an unhandled promise rejection. -/
  unhandledRejection : Option String
deriving Repr

/-- `onType` (lines 139-194) together with the eventual settlement of the
search pass it schedules.  `findResult` is the settlement of
`fileSearchService.find`; `intervening` is the number of further `onType`
invocations that bump the generation (each cancelling the current token,
lines 146-147) before this invocation's handler runs. -/
def onTypeRun (fuzzyTest : Str → Str → Bool) (getName pathOf : Str → Str)
    (st : RankerState) (roots : List Str) (locations : List Str) (lookFor : Str)
    (findResult : Except String (List Str)) (intervening : Nat) :
    RankerState × RunOutcome :=
  if roots = [] then
    (st, ⟨Except.ok (), false, none, false, none⟩)
  else
    let st' : RankerState := ⟨lookFor, st.gen + 1⟩
    let token := st'.gen
    let passed := historyPass fuzzyTest getName lookFor locations
    let recentlyUsedItems := passed.1
    let alreadyCollected := passed.2
    if lookFor.length > 0 then
      match findResult with
      | Except.error e => (st', ⟨Except.ok (), true, none, false, some e⟩)
      | Except.ok results =>
        let cancelled := tokenCancelled token (st'.gen + intervening)
        match runHandler getName pathOf lookFor alreadyCollected recentlyUsedItems
            cancelled results with
        | HandlerOutcome.skipped => (st', ⟨Except.ok (), true, none, false, none⟩)
        | HandlerOutcome.crashed => (st', ⟨Except.ok (), true, none, true, none⟩)
        | HandlerOutcome.delivered items =>
          (st', ⟨Except.ok (), true, some items, false, none⟩)
    else
      (st', ⟨Except.ok (), false, some recentlyUsedItems, false, none⟩)

/-- First-occurrence deduplication relative to an initial `seen` set: the
clean characterization of what both URI-collecting loops compute. -/
def keepFirsts : List Str → List Str → List Str
  | _, [] => []
  | seen, u :: rest =>
    if u ∈ seen then keepFirsts seen rest else u :: keepFirsts (u :: seen) rest

/-- A concrete fuzzy matcher (plain substring containment) used to
instantiate the opaque `fuzzy.test` collaborator on concrete inputs. -/
def ftSub : Str → Str → Bool := fun q u => (firstIndexOf q u).isSome

/-- Item with label `Test.ts` (normalized key `testts`, offset of `te` is 0). -/
def testItem : Item := ⟨"/Test.ts".toList, "Test.ts".toList, none⟩

/-- Item with label `Latest.ts` (normalized key `latestts`, offset of `te` is 2). -/
def latestItem : Item := ⟨"/Latest.ts".toList, "Latest.ts".toList, none⟩

/-- Item whose normalized label and normalized path both equal `filets`. -/
def tieItemA : Item := ⟨"/file1.ts".toList, "file1.ts".toList, none⟩

/-- A distinct item whose normalized label and normalized path also equal
`filets`: together with `tieItemA` it ties every comparison rule. -/
def tieItemB : Item := ⟨"/file2.ts".toList, "file2.ts".toList, none⟩

/-- Item with label `ba`: contains `a` at offset 1 but not `' a'`. -/
def baItem : Item := ⟨"/ba".toList, "ba".toList, none⟩

/-- Item with label `zz`: contains neither `a` nor `' a'`. -/
def zzItem : Item := ⟨"/zz".toList, "zz".toList, none⟩

example : normalizeQuery "Test.ts".toList = "testts".toList := by decide
example : normalizeKey "  La-test.ts ".toList = "latestts".toList := by decide
example : firstIndexOf "te".toList "latestts".toList = some 2 := by decide
example : firstIndexOf "te".toList "xyz".toList = none := by decide
example : strCmp "abc".toList "abd".toList = -1 := by decide

/-! ## Helper lemmas -/

theorem toItem_uri (getName : Str → Str) (u : Str) (g : Option String) :
    (toItem getName u g).uri = u := rfl

theorem keepFirsts_not_mem_seen :
    ∀ (l seen : List Str) (u : Str), u ∈ keepFirsts seen l → u ∉ seen := by
  intro l
  induction l with
  | nil => intro seen u h; simp [keepFirsts] at h
  | cons v rest ih =>
    intro seen u h
    by_cases hv : v ∈ seen
    · exact ih seen u (by simpa [keepFirsts, hv] using h)
    · simp only [keepFirsts, if_neg hv, List.mem_cons] at h
      rcases h with rfl | h
      · exact hv
      · intro hu
        exact ih (v :: seen) u h (List.mem_cons_of_mem v hu)

theorem keepFirsts_nodup : ∀ (l seen : List Str), (keepFirsts seen l).Nodup := by
  intro l
  induction l with
  | nil => intro seen; simp [keepFirsts]
  | cons v rest ih =>
    intro seen
    by_cases hv : v ∈ seen
    · simpa [keepFirsts, hv] using ih seen
    · simp only [keepFirsts, if_neg hv, List.nodup_cons]
      refine ⟨fun hmem => ?_, ih (v :: seen)⟩
      exact keepFirsts_not_mem_seen rest (v :: seen) v hmem (List.mem_cons_self v seen)

theorem historyLoop_map_uri (ft : Str → Str → Bool) (gn : Str → Str) (lf : Str) :
    ∀ (l seen : List Str) (k : Nat),
      (historyLoop ft gn lf l seen k).1.map Item.uri =
        keepFirsts seen (l.filter (ft lf)) := by
  intro l
  induction l with
  | nil => intro seen k; simp [historyLoop, keepFirsts]
  | cons u rest ih =>
    intro seen k
    by_cases hf : ft lf u = true
    · by_cases hs : u ∈ seen
      · simp [historyLoop, keepFirsts, List.filter_cons, hf, hs, ih]
      · simp [historyLoop, keepFirsts, List.filter_cons, hf, hs, ih, toItem]
    · simp [historyLoop, List.filter_cons, hf, ih]

theorem historyLoop_seen_sub (ft : Str → Str → Bool) (gn : Str → Str) (lf : Str) :
    ∀ (l seen : List Str) (k : Nat) (u : Str),
      u ∈ seen → u ∈ (historyLoop ft gn lf l seen k).2 := by
  intro l
  induction l with
  | nil => intro seen k u hu; simpa [historyLoop] using hu
  | cons v rest ih =>
    intro seen k u hu
    by_cases hf : ft lf v = true
    · by_cases hs : v ∈ seen
      · simpa [historyLoop, hf, hs] using ih seen k u hu
      · simpa [historyLoop, hf, hs] using
          ih (v :: seen) (k + 1) u (List.mem_cons_of_mem v hu)
    · simpa [historyLoop, hf] using ih seen k u hu

theorem historyLoop_uris_sub_seen (ft : Str → Str → Bool) (gn : Str → Str) (lf : Str) :
    ∀ (l seen : List Str) (k : Nat) (u : Str),
      u ∈ (historyLoop ft gn lf l seen k).1.map Item.uri →
      u ∈ (historyLoop ft gn lf l seen k).2 := by
  intro l
  induction l with
  | nil => intro seen k u h; simp [historyLoop] at h
  | cons v rest ih =>
    intro seen k u h
    by_cases hf : ft lf v = true
    · by_cases hs : v ∈ seen
      · simp [historyLoop, hf, hs] at h ⊢
        exact ih seen k u (by simpa using h)
      · simp [historyLoop, hf, hs, toItem] at h ⊢
        rcases h with rfl | h
        · exact historyLoop_seen_sub ft gn lf rest (u :: seen) (k + 1) u
            (List.mem_cons_self u seen)
        · exact ih (v :: seen) (k + 1) u (by simpa using h)
    · simp [historyLoop, hf] at h ⊢
      exact ih seen k u (by simpa using h)

theorem searchDedupLoop_map_uri (gn : Str → Str) :
    ∀ (rs seen : List Str),
      (searchDedupLoop gn rs seen).map Item.uri = keepFirsts seen rs := by
  intro rs
  induction rs with
  | nil => intro seen; simp [searchDedupLoop, keepFirsts]
  | cons u rest ih =>
    intro seen
    by_cases hs : u ∈ seen
    · simp [searchDedupLoop, keepFirsts, hs, ih]
    · simp [searchDedupLoop, keepFirsts, hs, ih, toItem]

theorem insertCmp_perm (cmp : Item → Item → Int) (x : Item) :
    ∀ l : List Item, (insertCmp cmp x l).Perm (x :: l) := by
  intro l
  induction l with
  | nil => simp [insertCmp]
  | cons y ys ih =>
    by_cases h : cmp x y ≤ 0
    · simp [insertCmp, h]
    · simp only [insertCmp, if_neg h]
      exact (ih.cons y).trans (List.Perm.swap x y ys)

theorem sortByCmp_perm (cmp : Item → Item → Int) :
    ∀ l : List Item, (sortByCmp cmp l).Perm l := by
  intro l
  induction l with
  | nil => simp [sortByCmp]
  | cons x xs ih =>
    exact (insertCmp_perm cmp x (sortByCmp cmp xs)).trans (ih.cons x)

theorem runHandler_delivered (getName pathOf : Str → Str) (lookFor : Str)
    (alreadyCollected : List Str) (recentlyUsedItems : List Item)
    (tokenCancelled' : Bool) (results : List Str) (out : List Item)
    (h : runHandler getName pathOf lookFor alreadyCollected recentlyUsedItems
        tokenCancelled' results = HandlerOutcome.delivered out) :
    ∃ s : List Item, out = recentlyUsedItems ++ s ∧
      (s.map Item.uri).Perm (keepFirsts alreadyCollected results) := by
  by_cases hc : tokenCancelled' = true
  · simp [runHandler, hc] at h
  · simp only [runHandler, hc, Bool.false_eq_true, if_false] at h
    rcases hsort : sortByCmp (compareItems pathOf lookFor)
        (searchDedupLoop getName results alreadyCollected) with _ | ⟨first, rest⟩
    · rw [hsort] at h; simp at h
    · rw [hsort] at h
      simp only [HandlerOutcome.delivered.injEq] at h
      refine ⟨toItem getName first.uri (some "file results") :: rest, h.symm, ?_⟩
      have hperm : (first :: rest).Perm
          (searchDedupLoop getName results alreadyCollected) := by
        rw [← hsort]; exact sortByCmp_perm _ _
      have hmap := hperm.map Item.uri
      rw [searchDedupLoop_map_uri] at hmap
      simpa [toItem] using hmap

theorem onTypeRun_delivered_shape (fuzzyTest : Str → Str → Bool)
    (getName pathOf : Str → Str) (st : RankerState) (roots locations : List Str)
    (lookFor : Str) (findResult : Except String (List Str)) (intervening : Nat)
    (out : List Item)
    (h : (onTypeRun fuzzyTest getName pathOf st roots locations lookFor findResult
        intervening).2.delivered = some out) :
    out = (historyPass fuzzyTest getName lookFor locations).1 ∨
      ∃ (s : List Item) (results : List Str),
        findResult = Except.ok results ∧
        out = (historyPass fuzzyTest getName lookFor locations).1 ++ s ∧
        (s.map Item.uri).Perm
          (keepFirsts (historyPass fuzzyTest getName lookFor locations).2 results) := by
  by_cases hr : roots = []
  · simp [onTypeRun, hr] at h
  · by_cases hq : lookFor.length > 0
    · rcases findResult with e | results
      · simp [onTypeRun, hr, hq] at h
      · simp only [onTypeRun, if_neg hr, if_pos hq] at h
        rcases hh : runHandler getName pathOf lookFor
            (historyPass fuzzyTest getName lookFor locations).2
            (historyPass fuzzyTest getName lookFor locations).1
            (tokenCancelled (st.gen + 1) (st.gen + 1 + intervening)) results
          with _ | _ | items
        · rw [hh] at h; simp at h
        · rw [hh] at h; simp at h
        · rw [hh] at h
          simp only [Option.some.injEq] at h
          subst h
          rcases runHandler_delivered _ _ _ _ _ _ _ _ hh with ⟨s, hout, hperm⟩
          exact Or.inr ⟨s, results, rfl, hout, hperm⟩
    · simp only [onTypeRun, if_neg hr, if_neg hq, Option.some.injEq] at h
      exact Or.inl h.symm

/-! ## Claim theorems -/

theorem compareItems_of_step (pathOf : Str → Str) (lookFor : Str) (a b : Item) (v : Int)
    (h : compareItemsStep pathOf lookFor a b Member.getLabel = Sum.inl v) :
    compareItems pathOf lookFor a b = v := by
  simp [compareItems, compareItemsFuel, h]

/-- C4: for every query, history and search-result list, no identifier
appears twice in the combined output list delivered to the acceptor:
first-seen wins across the history pass and the search pass, and repeats
within either source are emitted at most once. -/
theorem onType_output_uris_nodup
    (fuzzyTest : Str → Str → Bool) (getName pathOf : Str → Str) (st : RankerState)
    (roots locations : List Str) (lookFor : Str)
    (findResult : Except String (List Str)) (intervening : Nat) (out : List Item)
    (h : (onTypeRun fuzzyTest getName pathOf st roots locations lookFor findResult
        intervening).2.delivered = some out) :
    (out.map Item.uri).Nodup := by
  have hist_nodup :
      ((historyPass fuzzyTest getName lookFor locations).1.map Item.uri).Nodup := by
    simp only [historyPass]
    rw [historyLoop_map_uri]
    exact keepFirsts_nodup _ _
  rcases onTypeRun_delivered_shape _ _ _ _ _ _ _ _ _ _ h with
    hout | ⟨s, results, _, hout, hperm⟩
  · rw [hout]; exact hist_nodup
  · rw [hout, List.map_append]
    refine List.Nodup.append hist_nodup (hperm.symm.nodup (keepFirsts_nodup _ _)) ?_
    intro u hu1 hu2
    have h1 : u ∈ (historyPass fuzzyTest getName lookFor locations).2 := by
      simp only [historyPass] at hu1 ⊢
      exact historyLoop_uris_sub_seen _ _ _ _ _ _ _ hu1
    have h2 : u ∈ keepFirsts (historyPass fuzzyTest getName lookFor locations).2 results :=
      (hperm.mem_iff).mp hu2
    exact keepFirsts_not_mem_seen _ _ _ h2 h1

/-- C4 witness: a concrete run (empty query, two history entries) whose
delivered output has pairwise distinct URIs. -/
theorem onType_output_uris_nodup_witness :
    (([⟨"y".toList, "y".toList, some "recently opened"⟩,
       ⟨"x".toList, "x".toList, none⟩] : List Item).map Item.uri).Nodup :=
  onType_output_uris_nodup ftSub id id ⟨[], 0⟩ ["r".toList]
    ["x".toList, "y".toList] [] (Except.ok []) 0 _ (by decide)

/-- C5: whenever an output is delivered, the history-derived items form a
fixed-order prefix of it, and that prefix's identifiers are exactly the
history traversed in reverse, filtered by the fuzzy matcher and
deduplicated keeping first occurrences; the prefix is never re-sorted. -/
theorem onType_history_part_fixed_order
    (fuzzyTest : Str → Str → Bool) (getName pathOf : Str → Str) (st : RankerState)
    (roots locations : List Str) (lookFor : Str)
    (findResult : Except String (List Str)) (intervening : Nat) (out : List Item)
    (h : (onTypeRun fuzzyTest getName pathOf st roots locations lookFor findResult
        intervening).2.delivered = some out) :
    out.take (historyPass fuzzyTest getName lookFor locations).1.length =
      (historyPass fuzzyTest getName lookFor locations).1
    ∧ (historyPass fuzzyTest getName lookFor locations).1.map Item.uri =
      keepFirsts [] (locations.reverse.filter (fuzzyTest lookFor)) := by
  constructor
  · rcases onTypeRun_delivered_shape _ _ _ _ _ _ _ _ _ _ h with
      hout | ⟨s, results, _, hout, _⟩
    · rw [hout, List.take_length]
    · rw [hout, List.take_left]
  · simp only [historyPass]
    exact historyLoop_map_uri fuzzyTest getName lookFor locations.reverse [] 0

/-- C5 witness: the concrete empty-query run again, where the whole output
is the history-derived prefix. -/
theorem onType_history_part_fixed_order_witness :
    ([⟨"y".toList, "y".toList, some "recently opened"⟩,
      ⟨"x".toList, "x".toList, none⟩] : List Item).take
        (historyPass ftSub id ([] : Str) ["x".toList, "y".toList]).1.length =
      (historyPass ftSub id ([] : Str) ["x".toList, "y".toList]).1
    ∧ (historyPass ftSub id ([] : Str) ["x".toList, "y".toList]).1.map Item.uri =
      keepFirsts [] ((["x".toList, "y".toList] : List Str).reverse.filter
        (ftSub ([] : Str))) :=
  onType_history_part_fixed_order ftSub id id ⟨[], 0⟩ ["r".toList]
    ["x".toList, "y".toList] [] (Except.ok []) 0 _ (by decide)

/-- C6: the comparator orders by substring-match offset of the normalized
query in the normalized (label) key: neither matches → 0; exactly one
matches → that one first; different offsets → smaller offset first; same
offset → shorter key first, equal lengths broken by (case-insensitive,
since both keys are lower-cased) lexicographic comparison when that
comparison is decisive. -/
theorem compareItems_offset_ordering (pathOf : Str → Str) (lookFor : Str) (a b : Item) :
    (firstIndexOf (normalizeQuery lookFor) (normalizeKey a.label) = none →
      firstIndexOf (normalizeQuery lookFor) (normalizeKey b.label) = none →
      compareItems pathOf lookFor a b = 0)
    ∧ (∀ i, firstIndexOf (normalizeQuery lookFor) (normalizeKey a.label) = some i →
        firstIndexOf (normalizeQuery lookFor) (normalizeKey b.label) = none →
        compareItems pathOf lookFor a b = -1)
    ∧ (∀ j, firstIndexOf (normalizeQuery lookFor) (normalizeKey a.label) = none →
        firstIndexOf (normalizeQuery lookFor) (normalizeKey b.label) = some j →
        compareItems pathOf lookFor a b = 1)
    ∧ (∀ i j, firstIndexOf (normalizeQuery lookFor) (normalizeKey a.label) = some i →
        firstIndexOf (normalizeQuery lookFor) (normalizeKey b.label) = some j →
        i < j → compareItems pathOf lookFor a b = -1)
    ∧ (∀ i j, firstIndexOf (normalizeQuery lookFor) (normalizeKey a.label) = some i →
        firstIndexOf (normalizeQuery lookFor) (normalizeKey b.label) = some j →
        j < i → compareItems pathOf lookFor a b = 1)
    ∧ (∀ i, firstIndexOf (normalizeQuery lookFor) (normalizeKey a.label) = some i →
        firstIndexOf (normalizeQuery lookFor) (normalizeKey b.label) = some i →
        (normalizeKey a.label).length < (normalizeKey b.label).length →
        compareItems pathOf lookFor a b = -1)
    ∧ (∀ i, firstIndexOf (normalizeQuery lookFor) (normalizeKey a.label) = some i →
        firstIndexOf (normalizeQuery lookFor) (normalizeKey b.label) = some i →
        (normalizeKey b.label).length < (normalizeKey a.label).length →
        compareItems pathOf lookFor a b = 1)
    ∧ (∀ i, firstIndexOf (normalizeQuery lookFor) (normalizeKey a.label) = some i →
        firstIndexOf (normalizeQuery lookFor) (normalizeKey b.label) = some i →
        (normalizeKey a.label).length = (normalizeKey b.label).length →
        strCmp (normalizeKey a.label) (normalizeKey b.label) ≠ 0 →
        compareItems pathOf lookFor a b = strCmp (normalizeKey a.label) (normalizeKey b.label)) := by
  refine ⟨?_, ?_, ?_, ?_, ?_, ?_, ?_, ?_⟩
  · intro h1 h2
    exact compareItems_of_step _ _ _ _ _ (by simp [compareItemsStep, memberKey, h1, h2])
  · intro i h1 h2
    exact compareItems_of_step _ _ _ _ _ (by simp [compareItemsStep, memberKey, h1, h2])
  · intro j h1 h2
    exact compareItems_of_step _ _ _ _ _ (by simp [compareItemsStep, memberKey, h1, h2])
  · intro i j h1 h2 hij
    refine compareItems_of_step _ _ _ _ _ ?_
    simp only [compareItemsStep, memberKey, h1, h2]
    rw [if_neg (Nat.ne_of_lt hij)]
    rw [cmpNum, if_neg (Nat.ne_of_lt hij), if_neg (by omega)]
  · intro i j h1 h2 hji
    refine compareItems_of_step _ _ _ _ _ ?_
    simp only [compareItemsStep, memberKey, h1, h2]
    rw [if_neg (Nat.ne_of_lt hji).symm]
    rw [cmpNum, if_neg (Nat.ne_of_lt hji).symm, if_pos (by omega)]
  · intro i h1 h2 hlen
    refine compareItems_of_step _ _ _ _ _ ?_
    have hne : (normalizeKey a.label).length ≠ (normalizeKey b.label).length :=
      Nat.ne_of_lt hlen
    simp [compareItemsStep, memberKey, h1, h2, hne, hlen]
  · intro i h1 h2 hlen
    refine compareItems_of_step _ _ _ _ _ ?_
    have hne : (normalizeKey a.label).length ≠ (normalizeKey b.label).length :=
      (Nat.ne_of_lt hlen).symm
    have hnlt : ¬ (normalizeKey a.label).length < (normalizeKey b.label).length := by
      omega
    simp [compareItemsStep, memberKey, h1, h2, hne, hnlt]
  · intro i h1 h2 hlen hcmp
    refine compareItems_of_step _ _ _ _ _ ?_
    simp [compareItemsStep, memberKey, h1, h2, hlen, hcmp]

/-- C6 witness: query `te`, labels `Test.ts` (normalized `testts`, offset
0) and `Latest.ts` (normalized `latestts`, offset 2): the smaller offset
sorts first. -/
theorem compareItems_offset_ordering_witness :
    compareItems id "te".toList testItem latestItem = -1 :=
  (compareItems_offset_ordering id "te".toList testItem latestItem).2.2.2.1 0 2
    (by decide) (by decide) (by decide)

/-- C7: when the query is the empty string (and the early root check
passes), `onType` delivers exactly the history-derived items and never
invokes the search collaborator, whatever the collaborator's state
(`findResult`, `intervening`). -/
theorem onType_empty_query_no_search (fuzzyTest : Str → Str → Bool)
    (getName pathOf : Str → Str) (st : RankerState) (roots locations : List Str)
    (findResult : Except String (List Str)) (intervening : Nat)
    (hroots : roots ≠ []) :
    onTypeRun fuzzyTest getName pathOf st roots locations [] findResult intervening =
      (⟨[], st.gen + 1⟩,
        ⟨Except.ok (), false,
          some (historyPass fuzzyTest getName [] locations).1, false, none⟩) := by
  simp [onTypeRun, hroots]

/-- C7 witness: a concrete empty-query invocation delivering only history,
with the search collaborator in an arbitrary (here: rejected) state. -/
theorem onType_empty_query_no_search_witness :
    onTypeRun ftSub id id ⟨"q".toList, 5⟩ ["r".toList] ["x".toList] []
        (Except.error "e") 3 =
      (⟨[], 6⟩,
        ⟨Except.ok (), false, some (historyPass ftSub id [] ["x".toList]).1,
          false, none⟩) :=
  onType_empty_query_no_search ftSub id id ⟨"q".toList, 5⟩ ["r".toList] ["x".toList]
    (Except.error "e") 3 (by decide)

/-- C8: if at least one newer invocation starts (bumping the cancellation
generation) before an older invocation's search resolves, the older
invocation delivers nothing; and every invocation that passes the root
check replaces the cancellation token (generation `st.gen + 1`). -/
theorem onType_superseded_delivers_nothing (fuzzyTest : Str → Str → Bool)
    (getName pathOf : Str → Str) (st : RankerState) (roots locations : List Str)
    (lookFor : Str) (results : List Str) (intervening : Nat)
    (hroots : roots ≠ []) (hq : lookFor.length > 0) (hint : 0 < intervening) :
    (onTypeRun fuzzyTest getName pathOf st roots locations lookFor
        (Except.ok results) intervening).2.delivered = none
    ∧ (onTypeRun fuzzyTest getName pathOf st roots locations lookFor
        (Except.ok results) intervening).2.crashed = false
    ∧ (onTypeRun fuzzyTest getName pathOf st roots locations lookFor
        (Except.ok results) intervening).1.gen = st.gen + 1 := by
  have hc : tokenCancelled (st.gen + 1) (st.gen + 1 + intervening) = true := by
    simp only [tokenCancelled, decide_eq_true_eq]
    omega
  refine ⟨?_, ?_, ?_⟩ <;> simp [onTypeRun, hroots, hq, runHandler, hc]

/-- C8 witness: a concrete superseded invocation (one newer start before
its search resolves) delivers nothing even though its search succeeded. -/
theorem onType_superseded_delivers_nothing_witness :
    (onTypeRun ftSub id id ⟨[], 0⟩ ["r".toList] [] "q".toList
        (Except.ok ["qq".toList]) 1).2.delivered = none
    ∧ (onTypeRun ftSub id id ⟨[], 0⟩ ["r".toList] [] "q".toList
        (Except.ok ["qq".toList]) 1).2.crashed = false
    ∧ (onTypeRun ftSub id id ⟨[], 0⟩ ["r".toList] [] "q".toList
        (Except.ok ["qq".toList]) 1).1.gen = 0 + 1 :=
  onType_superseded_delivers_nothing ftSub id id ⟨[], 0⟩ ["r".toList] []
    "q".toList ["qq".toList] 1 (by decide) (by decide) (by decide)

/-- C10: with zero workspace roots, `onType` returns immediately: the
state (current query string and cancellation generation) is untouched, the
acceptor is never called, no search is started, and nothing fails. -/
theorem onType_no_roots_noop (fuzzyTest : Str → Str → Bool)
    (getName pathOf : Str → Str) (st : RankerState) (locations : List Str)
    (lookFor : Str) (findResult : Except String (List Str)) (intervening : Nat) :
    onTypeRun fuzzyTest getName pathOf st [] locations lookFor findResult
        intervening =
      (st, ⟨Except.ok (), false, none, false, none⟩) := by
  simp [onTypeRun]

/-- C9 counterexample: a concrete invocation whose search promise rejects;
`onType`'s own promise still resolves (`Except.ok ()`), so the failure is
not propagated to the caller — it is left as an unhandled rejection and
nothing is delivered. -/
theorem onType_rejection_not_propagated_cex :
    (onTypeRun ftSub id id ⟨[], 0⟩ ["r".toList] [] "q".toList
        (Except.error "boom") 0).2.returned = Except.ok ()
    ∧ (onTypeRun ftSub id id ⟨[], 0⟩ ["r".toList] [] "q".toList
        (Except.error "boom") 0).2.returned ≠ Except.error "boom"
    ∧ (onTypeRun ftSub id id ⟨[], 0⟩ ["r".toList] [] "q".toList
        (Except.error "boom") 0).2.unhandledRejection = some "boom"
    ∧ (onTypeRun ftSub id id ⟨[], 0⟩ ["r".toList] [] "q".toList
        (Except.error "boom") 0).2.delivered = none :=
  ⟨rfl, fun h => Except.noConfusion h, rfl, rfl⟩

/-- C9 amended: when the search collaborator's promise rejects, the ranker
neither swallows nor logs the failure, but it does not propagate it to the
caller either: the `find` promise is neither awaited nor returned, so the
invocation's own promise resolves normally and the rejection surfaces only
as an unhandled promise rejection, with no output delivered. -/
theorem onType_rejection_unhandled (fuzzyTest : Str → Str → Bool)
    (getName pathOf : Str → Str) (st : RankerState) (roots locations : List Str)
    (lookFor : Str) (e : String) (intervening : Nat)
    (hroots : roots ≠ []) (hq : lookFor.length > 0) :
    onTypeRun fuzzyTest getName pathOf st roots locations lookFor
        (Except.error e) intervening =
      (⟨lookFor, st.gen + 1⟩, ⟨Except.ok (), true, none, false, some e⟩) := by
  simp [onTypeRun, hroots, hq]

/-- C9 witness for the amended statement, at a concrete rejected search. -/
theorem onType_rejection_unhandled_witness :
    onTypeRun ftSub id id ⟨[], 7⟩ ["r".toList] ["x".toList] "q".toList
        (Except.error "boom") 2 =
      (⟨"q".toList, 8⟩, ⟨Except.ok (), true, none, false, some "boom"⟩) :=
  onType_rejection_unhandled ftSub id id ⟨[], 7⟩ ["r".toList] ["x".toList]
    "q".toList "boom" 2 (by decide) (by decide)

/-- C2 (refuting the one-level-fallback claim): on two distinct items
whose normalized labels AND normalized paths all tie (`file1.ts` /
`file2.ts` with query `file`, every key normalizing to `filets`), the
label pass recurses into the `getUri` pass, and that second pass reaches
line 273 again and re-invokes the comparator with `getUri` — with
unchanged arguments — so no recursion budget suffices: the source
overflows the call stack instead of terminating. -/
theorem compareItems_diverges_on_tie :
    compareItemsStep id "file".toList tieItemA tieItemB Member.getLabel =
      Sum.inr Member.getUri
    ∧ compareItemsStep id "file".toList tieItemA tieItemB Member.getUri =
      Sum.inr Member.getUri
    ∧ ∀ fuel : Nat,
        compareItemsFuel id "file".toList tieItemA tieItemB fuel Member.getLabel =
          none := by
  have hstepUri : compareItemsStep id "file".toList tieItemA tieItemB Member.getUri =
      Sum.inr Member.getUri := by decide
  have hstepLabel : compareItemsStep id "file".toList tieItemA tieItemB Member.getLabel =
      Sum.inr Member.getUri := by decide
  have huri : ∀ fuel : Nat,
      compareItemsFuel id "file".toList tieItemA tieItemB fuel Member.getUri = none := by
    intro fuel
    induction fuel with
    | zero => rfl
    | succ n ih =>
      simp only [compareItemsFuel]
      rw [hstepUri]
      exact ih
  refine ⟨hstepLabel, hstepUri, ?_⟩
  intro fuel
  cases fuel with
  | zero => rfl
  | succ n =>
    simp only [compareItemsFuel]
    rw [hstepLabel]
    exact huri n

/-- C3 counterexample: the query is not trimmed.  For the query `' a'` the
code's query normalization keeps the leading space while the spec's
three-step pipeline drops it, and the difference is observable in the
comparator: against labels `ba` and `zz` the code returns 0 (neither key
contains `' a'`) although under the spec's normalization `ba` contains `a`
and would sort first. -/
theorem normalizeQuery_not_trimmed_cex :
    normalizeQuery " a".toList ≠ specNormalize " a".toList
    ∧ firstIndexOf (normalizeQuery " a".toList) (normalizeKey "ba".toList) = none
    ∧ firstIndexOf (specNormalize " a".toList) (normalizeKey "ba".toList) = some 1
    ∧ compareItems id " a".toList baItem zzItem = 0 := by
  decide

/-- C3 amended: the candidate key is normalized exactly by the spec's
three steps (trim, lower-case, strip), while the query is only lower-cased
and stripped; the two normalizations agree precisely on queries that carry
no leading or trailing whitespace. -/
theorem normalizeKey_matches_spec_query_untrimmed :
    (∀ s : Str, normalizeKey s = specNormalize s)
    ∧ (∀ s : Str, jsTrim s = s → normalizeQuery s = specNormalize s) := by
  constructor
  · intro s; rfl
  · intro s h
    simp [normalizeQuery, specNormalize, h]

/-- C3 witness for the amended statement, on a whitespace-free query. -/
theorem normalizeKey_matches_spec_query_untrimmed_witness :
    normalizeQuery "ab".toList = specNormalize "ab".toList :=
  normalizeKey_matches_spec_query_untrimmed.2 "ab".toList (by decide)

/-- C1 (refuting the empty-segment claim): when the search pass yields
zero novel items after deduplication (here: the only search result is
already in history), the handler evaluates `first.getUri()` on
`sortedResults[0] === undefined` (line 179) and throws a `TypeError`
instead of delivering the history items alone: the acceptor is never
called. -/
theorem onType_crashes_when_search_segment_empty :
    (onTypeRun (fun _ _ => true) id id ⟨[], 0⟩ ["r".toList] ["file:///a".toList]
        "a".toList (Except.ok ["file:///a".toList]) 0).2.crashed = true
    ∧ (onTypeRun (fun _ _ => true) id id ⟨[], 0⟩ ["r".toList] ["file:///a".toList]
        "a".toList (Except.ok ["file:///a".toList]) 0).2.delivered = none := by
  exact ⟨by decide, by decide⟩
